import Mathlib

/-!
Verification of the matchmaking and call-signaling coordinator
(connecteng-server, src/server.js).

The server state consists of three in-memory stores:
  * `waitingUsers`   — the matchmaking queue (a JS array of waiting entries);
  * `userSocketMap`  — the connection registry (a JS Map userId → socketId);
  * `activeCalls`    — the call-intent tracker (a JS Map callerId → targetUserId).

JS `Map`s are embedded as association lists with `mapGet` / `mapSet` /
`mapDelete` realising `Map.get` / `Map.set` / `Map.delete` semantics
(`set` overwrites the entry for an existing key, `delete` removes it).

External collaborators are embedded as explicit inputs and outputs:
  * the profile store lookup result is an `Option Profile` argument;
  * the call ledger is a `List CallRecord` argument threaded through `end_call`,
    and a `ledgerOk : Bool` flag on `find_match` says whether the
    `db.collection(..).add(..)` write succeeds or throws;
  * live-channel emits, push (FCM) dispatch attempts, ledger writes and the
    caught-and-logged error are recorded as an `Event` trace.
-/

/-- A waiting entry pushed onto `waitingUsers` by the `find_match` handler:
`{ id: socket.id, userId, gender, genderPreference }`. -/
structure WaitingUser where
  id : String
  userId : String
  gender : String
  genderPreference : String
deriving Repr, DecidableEq

/-- The part of a user-profile document that `find_match` reads (`userAData.gender`). -/
structure Profile where
  gender : String
deriving Repr, DecidableEq

/-- A document of the `calls` collection:
`{ participants, channelName, createdAt, durationInSeconds }`. -/
structure CallRecord where
  participants : List String
  channelName : String
  createdAt : Nat
  durationInSeconds : Option Nat
deriving Repr, DecidableEq

/-- Observable side effects of a handler: live-channel emits
(`io.to(socketId).emit(..)`), push dispatch attempts (`sendFcmMessage`),
ledger record creation, and the `console.error` of a caught exception. -/
inductive Event where
  | matchFound (socketId channelName remoteUserId : String)
  | incomingCall (socketId callerId channelName : String)
  | callRejected (socketId : String)
  | callEnded (socketId : String)
  | fcmSend (targetUserId msgType : String)
  | ledgerAdd (participants : List String) (channelName : String)
  | logError
deriving Repr, DecidableEq

/-- The mutable server state: the queue, the registry and the tracker. -/
structure ServerState where
  waitingUsers : List WaitingUser
  userSocketMap : List (String × String)
  activeCalls : List (String × String)
deriving Repr, DecidableEq

/-- JS `Map.prototype.get`: value of the entry for key `k`, if present. -/
def mapGet (m : List (String × String)) (k : String) : Option String :=
  match m.find? (fun p => p.1 == k) with
  | some p => some p.2
  | none => none

/-- JS `Map.prototype.set`: overwrite the entry for `k` (observably: after
`set`, `get k` yields `v` and every other key is unchanged). -/
def mapSet (m : List (String × String)) (k v : String) : List (String × String) :=
  (k, v) :: m.filter (fun p => p.1 != k)

/-- JS `Map.prototype.delete`: remove the entry for `k` if present. -/
def mapDelete (m : List (String × String)) (k : String) : List (String × String) :=
  m.filter (fun p => p.1 != k)

/-- `aLikesB` in the `find_match` scan:
`pref === 'Anyone' || pref === gender` (server.js lines 150-151). -/
def aLikesB (prefA genderB : String) : Bool :=
  prefA == "Anyone" || prefA == genderB

/-- The reciprocal-preference predicate `aLikesB && bLikesA` (server.js line 153). -/
def compatible (userA userB : WaitingUser) : Bool :=
  aLikesB userA.genderPreference userB.gender && aLikesB userB.genderPreference userA.gender

/-- The head-to-tail scan of `waitingUsers` (server.js lines 145-158): first
entry compatible with `userA`, together with its index, if any. -/
def findMatchScan (userA : WaitingUser) : List WaitingUser → Option (WaitingUser × Nat)
  | [] => none
  | b :: rest =>
    if compatible userA b then some (b, 0)
    else
      match findMatchScan userA rest with
      | some (m, i) => some (m, i + 1)
      | none => none

/-- The `io.on('connection', ..)` prologue (server.js lines 66-72):
`if (userId) userSocketMap.set(userId, socket.id)`. -/
def connectionInit (s : ServerState) (socketId : String) (uid? : Option String) : ServerState :=
  match uid? with
  | some u => { s with userSocketMap := mapSet s.userSocketMap u socketId }
  | none => s

/-- The `find_match` handler (server.js lines 129-181). `uid?` is the handshake
userId, `profile?` the outcome of the profile lookup, `channelName` the
synthesized channel id, and `ledgerOk` whether `db.collection('calls').add`
succeeds; when it throws, control jumps to the `catch` block, so the two
`match_found` emits (which follow the awaited add) are skipped. -/
def find_match (s : ServerState) (socketId : String) (uid? : Option String)
    (profile? : Option Profile) (genderPreference : String)
    (channelName : String) (ledgerOk : Bool) : ServerState × List Event :=
  match uid? with
  | none => (s, [])
  | some uid =>
    match profile? with
    | none => (s, [])
    | some prof =>
      let userA : WaitingUser :=
        { id := socketId, userId := uid, gender := prof.gender,
          genderPreference := genderPreference }
      match findMatchScan userA s.waitingUsers with
      | some (matchedUser, matchIndex) =>
        let s1 := { s with waitingUsers := s.waitingUsers.eraseIdx matchIndex }
        if ledgerOk then
          (s1, [Event.ledgerAdd [userA.userId, matchedUser.userId] channelName,
                Event.matchFound userA.id channelName matchedUser.userId,
                Event.matchFound matchedUser.id channelName userA.userId])
        else
          (s1, [Event.logError])
      | none =>
        if s.waitingUsers.any (fun u => u.userId == userA.userId) then
          (s, [])
        else
          ({ s with waitingUsers := s.waitingUsers ++ [userA] }, [])

/-- The `send_call_invite` handler (server.js lines 76-100): track the invite
under the payload `callerId`, emit `incoming_call` to the target if bound,
always attempt a push dispatch typed `call`. -/
def send_call_invite (s : ServerState) (targetUserId channelName callerId : String) :
    ServerState × List Event :=
  let s1 := { s with activeCalls := mapSet s.activeCalls callerId targetUserId }
  let liveEv :=
    match mapGet s1.userSocketMap targetUserId with
    | some tsid => [Event.incomingCall tsid callerId channelName]
    | none => []
  (s1, liveEv ++ [Event.fcmSend targetUserId "call"])

/-- The `decline_call` handler (server.js lines 102-111): clear the invite for
the payload `callerId`, emit `call_rejected` to the caller if bound; no push. -/
def decline_call (s : ServerState) (callerId : String) : ServerState × List Event :=
  let s1 := { s with activeCalls := mapDelete s.activeCalls callerId }
  match mapGet s.userSocketMap callerId with
  | some csid => (s1, [Event.callRejected csid])
  | none => (s1, [])

/-- The `cancel_call` handler (server.js lines 113-126): clear the invite keyed
by the handshake userId, emit `call_ended` to the payload target if bound,
always attempt a push dispatch typed `cancel_call`. -/
def cancel_call (s : ServerState) (uid? : Option String) (targetUserId : String) :
    ServerState × List Event :=
  let ac :=
    match uid? with
    | some u => mapDelete s.activeCalls u
    | none => s.activeCalls
  let liveEv :=
    match mapGet s.userSocketMap targetUserId with
    | some tsid => [Event.callEnded tsid]
    | none => []
  ({ s with activeCalls := ac }, liveEv ++ [Event.fcmSend targetUserId "cancel_call"])

/-- `r.participants.includes(uid) && r.durationInSeconds === null`: the Firestore
query filter of the `end_call` handler (server.js lines 206-208). -/
def isOpenFor (uid : String) (r : CallRecord) : Bool :=
  r.participants.contains uid && r.durationInSeconds == none

/-- The `orderBy('createdAt','desc').limit(1)` selection (server.js lines
209-214): among records passing `isOpenFor`, one with maximal `createdAt`
(and its index); earlier document wins a creation-time tie. -/
def bestOpen (uid : String) : List CallRecord → Option (Nat × CallRecord)
  | [] => none
  | r :: rest =>
    match bestOpen uid rest with
    | none => if isOpenFor uid r then some (0, r) else none
    | some (j, b) =>
      if isOpenFor uid r then
        if r.createdAt < b.createdAt then some (j + 1, b) else some (0, r)
      else some (j + 1, b)

/-- `callDoc.ref.update({ durationInSeconds })` on the query result
(server.js lines 213-216); no-op when the query snapshot is empty. -/
def updateDuration (uid : String) (d : Nat) (ledger : List CallRecord) : List CallRecord :=
  match bestOpen uid ledger with
  | none => ledger
  | some (i, b) => ledger.set i { b with durationInSeconds := some d }

/-- The ringing-cancel step of the `end_call` handler (server.js lines
184-202): `if (activeCalls.has(userId))`, attempt a push dispatch typed
`cancel_call`, emit `call_ended` to the target if bound, clear the invite. -/
def end_call_ringing (s : ServerState) (uid? : Option String) : ServerState × List Event :=
  match uid? with
  | some u =>
    match mapGet s.activeCalls u with
    | some target =>
      let liveEv :=
        match mapGet s.userSocketMap target with
        | some tsid => [Event.callEnded tsid]
        | none => []
      ({ s with activeCalls := mapDelete s.activeCalls u },
       Event.fcmSend target "cancel_call" :: liveEv)
    | none => (s, [])
  | none => (s, [])

/-- The ledger step of the `end_call` handler (server.js lines 204-220):
`if (userId && durationInSeconds != null)`, update the selected open record. -/
def end_call_ledger (ledger : List CallRecord) (uid? : Option String)
    (durationInSeconds : Option Nat) : List CallRecord :=
  match uid?, durationInSeconds with
  | some u, some d => updateDuration u d ledger
  | some _, none => ledger
  | none, _ => ledger

/-- The `end_call` handler (server.js lines 183-221): the ringing-cancel step
followed by the ledger update. Returns (state, ledger, events). -/
def end_call (s : ServerState) (ledger : List CallRecord) (uid? : Option String)
    (durationInSeconds : Option Nat) : ServerState × List CallRecord × List Event :=
  ((end_call_ringing s uid?).1, end_call_ledger ledger uid? durationInSeconds,
   (end_call_ringing s uid?).2)

/-- The `cancel_search` handler (server.js lines 223-225). -/
def cancel_search (s : ServerState) (socketId : String) : ServerState :=
  { s with waitingUsers := s.waitingUsers.filter (fun u => u.id != socketId) }

/-- The `disconnect` handler (server.js lines 227-251): drop the connection
from the queue; if the handshake userId has an invite, emit `call_ended` to the
target if bound, attempt a push dispatch typed `cancel_call`, clear the invite;
finally `if (userId) userSocketMap.delete(userId)` — unconditional on which
socket the binding currently refers to. -/
def disconnect (s : ServerState) (socketId : String) (uid? : Option String) :
    ServerState × List Event :=
  let wq := s.waitingUsers.filter (fun u => u.id != socketId)
  let step2 : List (String × String) × List Event :=
    match uid? with
    | some u =>
      match mapGet s.activeCalls u with
      | some target =>
        let liveEv :=
          match mapGet s.userSocketMap target with
          | some tsid => [Event.callEnded tsid]
          | none => []
        (mapDelete s.activeCalls u, liveEv ++ [Event.fcmSend target "cancel_call"])
      | none => (s.activeCalls, [])
    | none => (s.activeCalls, [])
  let usm :=
    match uid? with
    | some u => mapDelete s.userSocketMap u
    | none => s.userSocketMap
  ({ waitingUsers := wq, userSocketMap := usm, activeCalls := step2.1 }, step2.2)

/-- Recognise a `match_found` emit in an event trace. -/
def isMatchFound : Event → Bool
  | Event.matchFound _ _ _ => true
  | _ => false

/-- Recognise a `call_ended` emit in an event trace. -/
def isCallEnded : Event → Bool
  | Event.callEnded _ => true
  | _ => false

/-- Recognise a push dispatch attempt in an event trace. -/
def isFcm : Event → Bool
  | Event.fcmSend _ _ => true
  | _ => false

/-- The queue invariant: no two entries share a userId. -/
def atMostOnePerUser : List WaitingUser → Bool
  | [] => true
  | x :: rest => !(rest.any (fun y => y.userId == x.userId)) && atMostOnePerUser rest

example : aLikesB "Anyone" "M" = true := by decide
example : aLikesB "F" "M" = false := by decide
example :
    findMatchScan ⟨"c1", "u1", "M", "F"⟩
      [⟨"c0", "u0", "M", "Anyone"⟩, ⟨"c2", "u2", "F", "M"⟩] =
    some (⟨"c2", "u2", "F", "M"⟩, 1) := by decide

/-! Association-list map lemmas. -/

theorem mapGet_cons (p : String × String) (m : List (String × String)) (k : String) :
    mapGet (p :: m) k = if p.1 == k then some p.2 else mapGet m k := by
  simp only [mapGet, List.find?]
  cases hab : p.1 == k <;> simp [hab]

theorem mapDelete_cons (p : String × String) (m : List (String × String)) (k : String) :
    mapDelete (p :: m) k =
      if p.1 == k then mapDelete m k else p :: mapDelete m k := by
  simp only [mapDelete, List.filter_cons]
  cases hab : p.1 == k <;> simp at hab <;> simp [hab]

theorem mapGet_mapDelete_self (m : List (String × String)) (k : String) :
    mapGet (mapDelete m k) k = none := by
  induction m with
  | nil => rfl
  | cons p rest ih =>
    rw [mapDelete_cons]
    cases hp : p.1 == k
    · rw [if_neg (by simp [hp]), mapGet_cons, if_neg (by simp [hp])]
      exact ih
    · rw [if_pos (by simp at hp; simp [hp])]
      exact ih

theorem mapGet_mapDelete_ne (m : List (String × String)) (k k' : String) (h : k' ≠ k) :
    mapGet (mapDelete m k) k' = mapGet m k' := by
  induction m with
  | nil => rfl
  | cons p rest ih =>
    rw [mapDelete_cons, mapGet_cons]
    cases hp : p.1 == k
    · rw [if_neg (by simp [hp]), mapGet_cons, ih]
    · have hpk : p.1 = k := by simpa using hp
      have hpk' : (p.1 == k') = false := by
        simp [hpk]
        intro hc
        exact h hc.symm
      rw [if_pos (by simp [hpk]), hpk', if_neg (by simp)]
      exact ih

theorem mapGet_mapSet_self (m : List (String × String)) (k v : String) :
    mapGet (mapSet m k v) k = some v := by
  show mapGet ((k, v) :: mapDelete m k) k = some v
  rw [mapGet_cons, if_pos (by simp)]

theorem mapGet_mapSet_ne (m : List (String × String)) (k v k' : String) (h : k' ≠ k) :
    mapGet (mapSet m k v) k' = mapGet m k' := by
  show mapGet ((k, v) :: mapDelete m k) k' = mapGet m k'
  have hk : (k == k') = false := by
    simp
    intro hc
    exact h hc.symm
  rw [mapGet_cons, if_neg (by simp [hk])]
  exact mapGet_mapDelete_ne m k k' h

/-! Lemmas about the matchmaking scan and the queue invariant. -/

theorem findMatchScan_sound (userA : WaitingUser) (q : List WaitingUser) :
    ∀ (b : WaitingUser) (i : Nat),
      findMatchScan userA q = some (b, i) →
      q.get? i = some b ∧ compatible userA b = true ∧
        ∀ j, j < i → ∀ c, q.get? j = some c → compatible userA c = false := by
  induction q with
  | nil => intro b i h; simp [findMatchScan] at h
  | cons x rest ih =>
    intro b i h
    unfold findMatchScan at h
    cases hc : compatible userA x
    · rw [if_neg (by simp [hc])] at h
      cases hrest : findMatchScan userA rest with
      | none => rw [hrest] at h; exact absurd h (by simp)
      | some p =>
        obtain ⟨m, i0⟩ := p
        rw [hrest] at h
        simp only [Option.some.injEq, Prod.mk.injEq] at h
        obtain ⟨hb, hi⟩ := h
        obtain ⟨h1, h2, h3⟩ := ih m i0 hrest
        subst hb
        subst hi
        refine ⟨by simpa using h1, h2, ?_⟩
        intro j hj c hcj
        cases j with
        | zero =>
          simp only [List.get?_cons_zero, Option.some.injEq] at hcj
          subst hcj
          exact hc
        | succ j0 =>
          simp only [List.get?_cons_succ] at hcj
          exact h3 j0 (by omega) c hcj
    · rw [if_pos (by simp [hc])] at h
      simp only [Option.some.injEq, Prod.mk.injEq] at h
      obtain ⟨hb, hi⟩ := h
      subst hb
      subst hi
      exact ⟨rfl, hc, by intro j hj; omega⟩

theorem findMatchScan_none (userA : WaitingUser) (q : List WaitingUser) :
    findMatchScan userA q = none ↔ ∀ c ∈ q, compatible userA c = false := by
  induction q with
  | nil => simp [findMatchScan]
  | cons x rest ih =>
    unfold findMatchScan
    cases hc : compatible userA x
    · rw [if_neg (by simp [hc])]
      cases hrest : findMatchScan userA rest with
      | none =>
        simp only [List.mem_cons]
        constructor
        · intro _ c hcmem
          rcases hcmem with hcx | hcr
          · subst hcx; exact hc
          · exact ih.mp hrest c hcr
        · intro _
          trivial
      | some p =>
        obtain ⟨m, i0⟩ := p
        simp only [List.mem_cons]
        constructor
        · intro habs
          exact absurd habs (by simp)
        · intro hall
          have hn : findMatchScan userA rest = none :=
            ih.mpr (fun c hcr => hall c (Or.inr hcr))
          rw [hn] at hrest
          exact absurd hrest (by simp)
    · rw [if_pos (by simp [hc])]
      simp only [List.mem_cons]
      constructor
      · intro habs; exact absurd habs (by simp)
      · intro hall
        have := hall x (Or.inl rfl)
        rw [hc] at this
        exact absurd this (by simp)

theorem get?_set_of_ne {α : Type} (l : List α) (i : Nat) (a : α) (j : Nat) (h : j ≠ i) :
    (l.set i a).get? j = l.get? j := by
  simp only [List.get?_eq_getElem?]
  rw [List.getElem?_set_ne (by omega)]

theorem get?_set_self {α : Type} (l : List α) (i : Nat) (a : α) (h : i < l.length) :
    (l.set i a).get? i = some a := by
  simp only [List.get?_eq_getElem?]
  rw [List.getElem?_set_self]
  simp [h]

theorem atMostOnePerUser_cons (x : WaitingUser) (rest : List WaitingUser) :
    atMostOnePerUser (x :: rest) =
      (!(rest.any (fun y => y.userId == x.userId)) && atMostOnePerUser rest) := rfl

theorem any_false_of_sublist (l1 l2 : List WaitingUser) (p : WaitingUser → Bool)
    (hs : List.Sublist l1 l2) (h : l2.any p = false) : l1.any p = false := by
  cases h1 : l1.any p
  · rfl
  · obtain ⟨x, hx, hpx⟩ := List.any_eq_true.mp h1
    have h2 : l2.any p = true := List.any_eq_true.mpr ⟨x, hs.subset hx, hpx⟩
    rw [h] at h2
    exact absurd h2 (by simp)

theorem atMostOnePerUser_sublist (l1 l2 : List WaitingUser) (hs : List.Sublist l1 l2) :
    atMostOnePerUser l2 = true → atMostOnePerUser l1 = true := by
  induction hs with
  | slnil => exact fun h => h
  | cons a hs ih =>
    intro h
    rw [atMostOnePerUser_cons, Bool.and_eq_true] at h
    exact ih h.2
  | cons₂ a hs ih =>
    intro h
    rw [atMostOnePerUser_cons, Bool.and_eq_true] at h
    obtain ⟨h1, h2⟩ := h
    rw [atMostOnePerUser_cons, Bool.and_eq_true]
    refine ⟨?_, ih h2⟩
    rw [Bool.not_eq_true'] at h1
    have hf := any_false_of_sublist _ _ _ hs h1
    simp [hf]

theorem atMostOnePerUser_eraseIdx (l : List WaitingUser) (i : Nat)
    (h : atMostOnePerUser l = true) : atMostOnePerUser (l.eraseIdx i) = true :=
  atMostOnePerUser_sublist _ _ (List.eraseIdx_sublist l i) h

theorem countP_userId_eq_one (q : List WaitingUser) (u : String) :
    atMostOnePerUser q = true → q.any (fun e => e.userId == u) = true →
    q.countP (fun e => e.userId == u) = 1 := by
  induction q with
  | nil => intro _ hmem; simp at hmem
  | cons x rest ih =>
    intro hinv hmem
    rw [atMostOnePerUser_cons, Bool.and_eq_true] at hinv
    obtain ⟨h1, h2⟩ := hinv
    rw [List.countP_cons]
    cases hx : (x.userId == u)
    · have hmem' : rest.any (fun e => e.userId == u) = true := by
        simpa [List.any_cons, hx] using hmem
      simp [ih h2 hmem', hx]
    · have hxu : x.userId = u := by simpa using hx
      have hnone : rest.any (fun y => y.userId == x.userId) = false := by simpa using h1
      have hzero : rest.countP (fun e => e.userId == u) = 0 := by
        rw [List.countP_eq_zero]
        intro a ha hau
        have ht : rest.any (fun y => y.userId == x.userId) = true := by
          refine List.any_eq_true.mpr ⟨a, ha, ?_⟩
          rw [hxu]
          simpa using hau
        rw [hnone] at ht
        exact absurd ht (by simp)
      simp [hzero, hx]

theorem eraseIdx_no_userId (q : List WaitingUser) :
    ∀ (i : Nat) (b : WaitingUser), q.get? i = some b → atMostOnePerUser q = true →
      ∀ e ∈ q.eraseIdx i, (e.userId == b.userId) = false := by
  induction q with
  | nil => intro i b hget _; simp at hget
  | cons x rest ih =>
    intro i b hget hinv
    rw [atMostOnePerUser_cons, Bool.and_eq_true] at hinv
    obtain ⟨h1, h2⟩ := hinv
    have hfalse : rest.any (fun y => y.userId == x.userId) = false := by simpa using h1
    cases i with
    | zero =>
      simp only [List.get?_cons_zero, Option.some.injEq] at hget
      subst hget
      intro e he
      simp only [List.eraseIdx_cons_zero] at he
      cases heb : (e.userId == x.userId)
      · rfl
      · have ht : rest.any (fun y => y.userId == x.userId) = true :=
          List.any_eq_true.mpr ⟨e, he, heb⟩
        rw [hfalse] at ht
        exact absurd ht (by simp)
    | succ j =>
      simp only [List.get?_cons_succ] at hget
      intro e he
      simp only [List.eraseIdx_cons_succ] at he
      rcases List.mem_cons.mp he with hex | her
      · subst hex
        have hb : b ∈ rest := List.get?_mem hget
        cases hbe : (b.userId == e.userId)
        · have hne : ¬b.userId = e.userId := by simpa using hbe
          simp
          intro hc
          exact hne hc.symm
        · have ht : rest.any (fun y => y.userId == e.userId) = true :=
            List.any_eq_true.mpr ⟨b, hb, hbe⟩
          rw [hfalse] at ht
          exact absurd ht (by simp)
      · exact ih j b hget h2 e her

/-! Lemmas about the open-call-record selection of `end_call`. -/

theorem bestOpen_none (uid : String) (l : List CallRecord) :
    bestOpen uid l = none ↔ ∀ r ∈ l, isOpenFor uid r = false := by
  induction l with
  | nil => simp [bestOpen]
  | cons r rest ih =>
    unfold bestOpen
    cases hrest : bestOpen uid rest with
    | none =>
      cases hr : isOpenFor uid r
      · simp only [List.mem_cons]
        constructor
        · intro _ c hcmem
          rcases hcmem with hcx | hcr
          · subst hcx; exact hr
          · exact ih.mp hrest c hcr
        · intro _
          simp
      · simp only [List.mem_cons]
        constructor
        · intro habs
          simp at habs
        · intro hall
          have hx := hall r (Or.inl rfl)
          rw [hr] at hx
          exact absurd hx (by simp)
    | some p =>
      obtain ⟨j, b⟩ := p
      simp only [List.mem_cons]
      constructor
      · intro habs
        cases hr : isOpenFor uid r
        · rw [hr] at habs
          simp at habs
        · rw [hr] at habs
          simp only [if_true] at habs
          split at habs <;> simp at habs
      · intro hall
        have hn : bestOpen uid rest = none :=
          ih.mpr (fun c hcr => hall c (Or.inr hcr))
        rw [hn] at hrest
        exact absurd hrest (by simp)

theorem bestOpen_sound (uid : String) (l : List CallRecord) :
    ∀ (i : Nat) (b : CallRecord),
      bestOpen uid l = some (i, b) →
      l.get? i = some b ∧ isOpenFor uid b = true ∧
        ∀ r ∈ l, isOpenFor uid r = true → r.createdAt ≤ b.createdAt := by
  induction l with
  | nil => intro i b h; simp [bestOpen] at h
  | cons x rest ih =>
    intro i b h
    unfold bestOpen at h
    cases hrest : bestOpen uid rest with
    | none =>
      rw [hrest] at h
      cases hx : isOpenFor uid x
      · rw [hx] at h
        simp at h
      · rw [hx] at h
        simp only [if_true, Option.some.injEq, Prod.mk.injEq] at h
        obtain ⟨hi, hb⟩ := h
        subst hi
        subst hb
        refine ⟨rfl, hx, ?_⟩
        intro r hr hopen
        rcases List.mem_cons.mp hr with hrx | hrr
        · subst hrx; exact Nat.le_refl _
        · have := (bestOpen_none uid rest).mp hrest r hrr
          rw [this] at hopen
          exact absurd hopen (by simp)
    | some p =>
      obtain ⟨j, bb⟩ := p
      rw [hrest] at h
      obtain ⟨h1, h2, h3⟩ := ih j bb hrest
      cases hx : isOpenFor uid x
      · rw [hx] at h
        simp at h
        obtain ⟨hi, hb⟩ := h
        subst hi
        subst hb
        refine ⟨by simpa using h1, h2, ?_⟩
        intro r hr hopen
        rcases List.mem_cons.mp hr with hrx | hrr
        · subst hrx
          rw [hx] at hopen
          exact absurd hopen (by simp)
        · exact h3 r hrr hopen
      · rw [hx] at h
        simp only [if_true] at h
        by_cases hlt : x.createdAt < bb.createdAt
        · rw [if_pos hlt] at h
          simp only [Option.some.injEq, Prod.mk.injEq] at h
          obtain ⟨hi, hb⟩ := h
          subst hi
          subst hb
          refine ⟨by simpa using h1, h2, ?_⟩
          intro r hr hopen
          rcases List.mem_cons.mp hr with hrx | hrr
          · subst hrx; exact Nat.le_of_lt hlt
          · exact h3 r hrr hopen
        · rw [if_neg hlt] at h
          simp only [Option.some.injEq, Prod.mk.injEq] at h
          obtain ⟨hi, hb⟩ := h
          subst hi
          subst hb
          refine ⟨rfl, hx, ?_⟩
          intro r hr hopen
          rcases List.mem_cons.mp hr with hrx | hrr
          · subst hrx; exact Nat.le_refl _
          · exact Nat.le_trans (h3 r hrr hopen) (Nat.le_of_not_lt hlt)

/-! Shared handler-unfolding helpers. -/

theorem find_match_matched_state (s : ServerState) (socketId uid : String) (prof : Profile)
    (pref channelName : String) (ledgerOk : Bool) (b : WaitingUser) (i : Nat)
    (h : findMatchScan ⟨socketId, uid, prof.gender, pref⟩ s.waitingUsers = some (b, i)) :
    (find_match s socketId (some uid) (some prof) pref channelName ledgerOk).1 =
      { s with waitingUsers := s.waitingUsers.eraseIdx i } := by
  cases ledgerOk <;> simp [find_match, h]

/-- C1: for every `find_match` request from a user A whose profile resolves, the
matcher scans the waiting queue head-to-tail and selects the first
(oldest-enqueued) entry B satisfying the reciprocal predicate: if the scan
returns `(b, i)`, then `b` is the queue entry at index `i`, it is compatible
with A, every strictly earlier entry is incompatible with A (so no later entry
is ever selected over an earlier compatible one), and the handler removes
exactly that entry from the queue. -/
theorem find_match_first_fit (s : ServerState) (socketId uid : String) (prof : Profile)
    (pref channelName : String) (ledgerOk : Bool) (b : WaitingUser) (i : Nat)
    (h : findMatchScan ⟨socketId, uid, prof.gender, pref⟩ s.waitingUsers = some (b, i)) :
    s.waitingUsers.get? i = some b ∧
    compatible ⟨socketId, uid, prof.gender, pref⟩ b = true ∧
    (∀ j, j < i → ∀ c, s.waitingUsers.get? j = some c →
      compatible ⟨socketId, uid, prof.gender, pref⟩ c = false) ∧
    (find_match s socketId (some uid) (some prof) pref channelName ledgerOk).1.waitingUsers =
      s.waitingUsers.eraseIdx i := by
  obtain ⟨h1, h2, h3⟩ := findMatchScan_sound _ _ b i h
  refine ⟨h1, h2, h3, ?_⟩
  rw [find_match_matched_state s socketId uid prof pref channelName ledgerOk b i h]

/-- Witness for `find_match_first_fit` at a concrete queue with one
compatible entry. -/
theorem find_match_first_fit_witness :
    ([⟨"c2", "u2", "F", "Anyone"⟩] : List WaitingUser).get? 0 =
        some ⟨"c2", "u2", "F", "Anyone"⟩ ∧
    compatible ⟨"c1", "u1", "M", "Anyone"⟩ ⟨"c2", "u2", "F", "Anyone"⟩ = true ∧
    (∀ j, j < 0 → ∀ c, ([⟨"c2", "u2", "F", "Anyone"⟩] : List WaitingUser).get? j = some c →
      compatible ⟨"c1", "u1", "M", "Anyone"⟩ c = false) ∧
    (find_match ⟨[⟨"c2", "u2", "F", "Anyone"⟩], [], []⟩ "c1" (some "u1") (some ⟨"M"⟩)
        "Anyone" "ch" true).1.waitingUsers =
      ([⟨"c2", "u2", "F", "Anyone"⟩] : List WaitingUser).eraseIdx 0 :=
  find_match_first_fit ⟨[⟨"c2", "u2", "F", "Anyone"⟩], [], []⟩ "c1" "u1" ⟨"M"⟩ "Anyone" "ch"
    true ⟨"c2", "u2", "F", "Anyone"⟩ 0 (by decide)

/-- C9: a self-match is reachable. Starting from the empty queue, user u1
(gender M) with preference Anyone issues `find_match` and is enqueued; issuing
`find_match` again matches the reciprocal scan against u1's own queue entry,
so the persisted participants pair is `["u1", "u1"]` and both `match_found`
notifications carry remoteUserId "u1" and target the same user. -/
theorem find_match_self_match :
    (find_match ⟨[], [("u1", "c1")], []⟩ "c1" (some "u1") (some ⟨"M"⟩) "Anyone" "ch1"
        true).1.waitingUsers = [⟨"c1", "u1", "M", "Anyone"⟩] ∧
    (find_match ⟨[], [("u1", "c1")], []⟩ "c1" (some "u1") (some ⟨"M"⟩) "Anyone" "ch1"
        true).2 = [] ∧
    (find_match (find_match ⟨[], [("u1", "c1")], []⟩ "c1" (some "u1") (some ⟨"M"⟩) "Anyone"
          "ch1" true).1 "c1" (some "u1") (some ⟨"M"⟩) "Anyone" "ch2" true).2 =
      [Event.ledgerAdd ["u1", "u1"] "ch2",
       Event.matchFound "c1" "ch2" "u1",
       Event.matchFound "c1" "ch2" "u1"] := by
  decide

/-- C2 counterexample: user u1 connects on c1, reconnects on c2 (the registry
binding is overwritten to c2), then the stale disconnect of c1 arrives. The
claim says the binding u1 -> c2 is left intact; the code does
`userSocketMap.delete(userId)` unconditionally, so the newer binding is
evicted. -/
theorem disconnect_stale_evicts_binding_cex :
    mapGet ((connectionInit (connectionInit ⟨[], [], []⟩ "c1" (some "u1")) "c2"
        (some "u1")).userSocketMap) "u1" = some "c2" ∧
    ("c2" : String) ≠ "c1" ∧
    mapGet ((disconnect (connectionInit (connectionInit ⟨[], [], []⟩ "c1" (some "u1")) "c2"
        (some "u1")) "c1" (some "u1")).1.userSocketMap) "u1" = none := by
  decide

/-- C2 amended: the disconnect handler removes the registry binding for its
handshake userId unconditionally — there is no compare-and-delete on the
connection identity, so a stale disconnect evicts a newer reconnection's
binding. Bindings of every other userId are untouched. -/
theorem disconnect_unbinds_unconditionally (s : ServerState) (socketId u : String) :
    mapGet (disconnect s socketId (some u)).1.userSocketMap u = none ∧
    ∀ v, v ≠ u → mapGet (disconnect s socketId (some u)).1.userSocketMap v =
      mapGet s.userSocketMap v := by
  constructor
  · show mapGet (mapDelete s.userSocketMap u) u = none
    exact mapGet_mapDelete_self _ _
  · intro v hv
    show mapGet (mapDelete s.userSocketMap u) v = mapGet s.userSocketMap v
    exact mapGet_mapDelete_ne _ _ _ hv

/-- Witness for `disconnect_unbinds_unconditionally` at a concrete state in
which u1 is bound to c2 and the disconnect carries connection c1. -/
theorem disconnect_unbinds_unconditionally_witness :
    mapGet (disconnect ⟨[], [("u1", "c2"), ("u3", "c3")], []⟩ "c1"
        (some "u1")).1.userSocketMap "u1" = none ∧
    ∀ v, v ≠ "u1" → mapGet (disconnect ⟨[], [("u1", "c2"), ("u3", "c3")], []⟩ "c1"
        (some "u1")).1.userSocketMap v =
      mapGet ([("u1", "c2"), ("u3", "c3")] : List (String × String)) v :=
  disconnect_unbinds_unconditionally ⟨[], [("u1", "c2"), ("u3", "c3")], []⟩ "c1" "u1"

/-- C3 counterexample: with a compatible user u2 waiting, u1 issues
`find_match` and the ledger write fails. The claim says both parties are still
sent `match_found`; the code catches and logs the error but the emits follow
the awaited write inside the `try`, so no `match_found` is emitted at all
(while the matched peer has already been removed from the queue). -/
theorem find_match_ledger_fail_cex :
    (find_match ⟨[⟨"c2", "u2", "F", "Anyone"⟩], [("u2", "c2")], []⟩ "c1" (some "u1")
        (some ⟨"M"⟩) "Anyone" "ch" false).1.waitingUsers = [] ∧
    (find_match ⟨[⟨"c2", "u2", "F", "Anyone"⟩], [("u2", "c2")], []⟩ "c1" (some "u1")
        (some ⟨"M"⟩) "Anyone" "ch" false).2 = [Event.logError] ∧
    (find_match ⟨[⟨"c2", "u2", "F", "Anyone"⟩], [("u2", "c2")], []⟩ "c1" (some "u1")
        (some ⟨"M"⟩) "Anyone" "ch" false).2.countP isMatchFound = 0 := by
  decide

/-- C3 amended: when the reciprocal scan finds a match and persisting the call
record fails, the error is caught and logged (the handler does not crash) and
the matched peer is removed from the queue, but neither party receives a
`match_found` notification: the only observable event is the logged error. -/
theorem find_match_ledger_fail_behavior (s : ServerState) (socketId uid : String)
    (prof : Profile) (pref channelName : String) (b : WaitingUser) (i : Nat)
    (h : findMatchScan ⟨socketId, uid, prof.gender, pref⟩ s.waitingUsers = some (b, i)) :
    find_match s socketId (some uid) (some prof) pref channelName false =
      ({ s with waitingUsers := s.waitingUsers.eraseIdx i }, [Event.logError]) := by
  simp [find_match, h]

/-- Witness for `find_match_ledger_fail_behavior` at a concrete queue. -/
theorem find_match_ledger_fail_behavior_witness :
    find_match ⟨[⟨"c9", "u9", "F", "M"⟩], [], []⟩ "c8" (some "u8") (some ⟨"M"⟩) "F" "chx"
        false =
      ({ waitingUsers := ([⟨"c9", "u9", "F", "M"⟩] : List WaitingUser).eraseIdx 0,
         userSocketMap := [], activeCalls := [] }, [Event.logError]) :=
  find_match_ledger_fail_behavior ⟨[⟨"c9", "u9", "F", "M"⟩], [], []⟩ "c8" "u8" ⟨"M"⟩ "F"
    "chx" ⟨"c9", "u9", "F", "M"⟩ 0 (by decide)

/-- C4 counterexample: u1 (gender M, preference F) already has an older entry
in the queue; u2 (gender F, preference M) is behind it. u1 issues `find_match`
again with preference F: the scan skips u1's own (self-incompatible) entry and
matches u2, and only u2's entry is spliced out — u1's older entry remains in
the queue even though u1 is one of the matched userIds. -/
theorem match_leaves_own_entry_cex :
    (find_match ⟨[⟨"c0", "u1", "M", "F"⟩, ⟨"c2", "u2", "F", "M"⟩], [], []⟩ "c1" (some "u1")
        (some ⟨"M"⟩) "F" "ch" true).2 =
      [Event.ledgerAdd ["u1", "u2"] "ch",
       Event.matchFound "c1" "ch" "u2",
       Event.matchFound "c2" "ch" "u1"] ∧
    (find_match ⟨[⟨"c0", "u1", "M", "F"⟩, ⟨"c2", "u2", "F", "M"⟩], [], []⟩ "c1" (some "u1")
        (some ⟨"M"⟩) "F" "ch" true).1.waitingUsers.any (fun e => e.userId == "u1") = true := by
  decide

/-- C4 amended: after a match, the matched peer's userId has no entry left in
the queue (assuming the at-most-one-entry-per-userId invariant), and the
requester's userId has no entry left provided the requester had no older entry
of their own before the call; a pre-existing entry of the requester survives. -/
theorem match_removes_matched_peer (s : ServerState) (socketId uid : String) (prof : Profile)
    (pref channelName : String) (ledgerOk : Bool) (b : WaitingUser) (i : Nat)
    (h : findMatchScan ⟨socketId, uid, prof.gender, pref⟩ s.waitingUsers = some (b, i))
    (hinv : atMostOnePerUser s.waitingUsers = true) :
    (∀ e ∈ (find_match s socketId (some uid) (some prof) pref channelName
        ledgerOk).1.waitingUsers, (e.userId == b.userId) = false) ∧
    ((∀ e ∈ s.waitingUsers, (e.userId == uid) = false) →
      ∀ e ∈ (find_match s socketId (some uid) (some prof) pref channelName
        ledgerOk).1.waitingUsers, (e.userId == uid) = false) := by
  obtain ⟨h1, _, _⟩ := findMatchScan_sound _ _ b i h
  rw [find_match_matched_state s socketId uid prof pref channelName ledgerOk b i h]
  constructor
  · exact eraseIdx_no_userId s.waitingUsers i b h1 hinv
  · intro hnone e he
    exact hnone e ((List.eraseIdx_sublist _ _).subset he)

/-- Witness for `match_removes_matched_peer` at the C4 counterexample state. -/
theorem match_removes_matched_peer_witness :
    (∀ e ∈ (find_match ⟨[⟨"c0", "u1", "M", "F"⟩, ⟨"c2", "u2", "F", "M"⟩], [], []⟩ "c1"
        (some "u1") (some ⟨"M"⟩) "F" "ch" true).1.waitingUsers,
      (e.userId == "u2") = false) ∧
    ((∀ e ∈ ([⟨"c0", "u1", "M", "F"⟩, ⟨"c2", "u2", "F", "M"⟩] : List WaitingUser),
        (e.userId == "u1") = false) →
      ∀ e ∈ (find_match ⟨[⟨"c0", "u1", "M", "F"⟩, ⟨"c2", "u2", "F", "M"⟩], [], []⟩ "c1"
        (some "u1") (some ⟨"M"⟩) "F" "ch" true).1.waitingUsers,
        (e.userId == "u1") = false) :=
  match_removes_matched_peer ⟨[⟨"c0", "u1", "M", "F"⟩, ⟨"c2", "u2", "F", "M"⟩], [], []⟩ "c1"
    "u1" ⟨"M"⟩ "F" "ch" true ⟨"c2", "u2", "F", "M"⟩ 1 (by decide) (by decide)

theorem atMostOnePerUser_append (q : List WaitingUser) (a : WaitingUser)
    (hinv : atMostOnePerUser q = true)
    (hnot : q.any (fun e => e.userId == a.userId) = false) :
    atMostOnePerUser (q ++ [a]) = true := by
  induction q with
  | nil => simp [atMostOnePerUser]
  | cons x rest ih =>
    rw [atMostOnePerUser_cons, Bool.and_eq_true] at hinv
    obtain ⟨h1, h2⟩ := hinv
    simp only [List.any_cons, Bool.or_eq_false_iff] at hnot
    obtain ⟨hx, hrest⟩ := hnot
    rw [List.cons_append, atMostOnePerUser_cons, Bool.and_eq_true]
    refine ⟨?_, ih h2 hrest⟩
    rw [Bool.not_eq_true', List.any_append]
    have h1f : rest.any (fun y => y.userId == x.userId) = false := by simpa using h1
    rw [h1f]
    simp only [List.any_cons, List.any_nil, Bool.or_false, Bool.false_or]
    have hne : ¬x.userId = a.userId := by simpa using hx
    simp
    intro hc
    exact hne hc.symm

/-- C5: re-requesting while already waiting is idempotent, and `find_match`
preserves the at-most-one-entry-per-userId queue invariant. Part 1: the
invariant is preserved by any `find_match` outcome. Part 2: if the caller's
userId is already in the queue and the scan finds no match, the queue is left
completely unchanged (the second insertion is a no-op). Part 3: under the
invariant, that unchanged queue holds exactly one entry for the caller's
userId. -/
theorem enqueue_idempotent_unique (s : ServerState) (socketId uid : String) (prof : Profile)
    (pref channelName : String) (ledgerOk : Bool) :
    (atMostOnePerUser s.waitingUsers = true →
      atMostOnePerUser (find_match s socketId (some uid) (some prof) pref channelName
        ledgerOk).1.waitingUsers = true) ∧
    (s.waitingUsers.any (fun e => e.userId == uid) = true →
      findMatchScan ⟨socketId, uid, prof.gender, pref⟩ s.waitingUsers = none →
      (find_match s socketId (some uid) (some prof) pref channelName ledgerOk).1.waitingUsers =
        s.waitingUsers) ∧
    (atMostOnePerUser s.waitingUsers = true →
      s.waitingUsers.any (fun e => e.userId == uid) = true →
      findMatchScan ⟨socketId, uid, prof.gender, pref⟩ s.waitingUsers = none →
      (find_match s socketId (some uid) (some prof) pref channelName
        ledgerOk).1.waitingUsers.countP (fun e => e.userId == uid) = 1) := by
  have hnomatch : ∀ hsc : findMatchScan ⟨socketId, uid, prof.gender, pref⟩ s.waitingUsers
        = none, ∀ hw : s.waitingUsers.any (fun e => e.userId == uid) = true,
      (find_match s socketId (some uid) (some prof) pref channelName ledgerOk).1.waitingUsers =
        s.waitingUsers := by
    intro hsc hw
    simp [find_match, hsc, hw]
  refine ⟨?_, fun hw hsc => hnomatch hsc hw, ?_⟩
  · intro hinv
    cases hscan : findMatchScan ⟨socketId, uid, prof.gender, pref⟩ s.waitingUsers with
    | some p =>
      obtain ⟨b, i⟩ := p
      rw [find_match_matched_state s socketId uid prof pref channelName ledgerOk b i hscan]
      exact atMostOnePerUser_eraseIdx _ _ hinv
    | none =>
      cases hany : s.waitingUsers.any (fun e => e.userId == uid)
      · have heq : (find_match s socketId (some uid) (some prof) pref channelName
            ledgerOk).1.waitingUsers =
            s.waitingUsers ++ [⟨socketId, uid, prof.gender, pref⟩] := by
          simp [find_match, hscan, hany]
        rw [heq]
        exact atMostOnePerUser_append _ _ hinv hany
      · rw [hnomatch hscan hany]
        exact hinv
  · intro hinv hany hscan
    rw [hnomatch hscan hany]
    exact countP_userId_eq_one s.waitingUsers uid hinv hany

/-- Witness for `enqueue_idempotent_unique`: u1 waits with a
self-incompatible entry and re-requests; the queue is unchanged and still
holds exactly one entry for u1. -/
theorem enqueue_idempotent_unique_witness :
    atMostOnePerUser (find_match ⟨[⟨"c0", "u1", "M", "F"⟩], [], []⟩ "c1" (some "u1")
        (some ⟨"M"⟩) "F" "ch" true).1.waitingUsers = true ∧
    (find_match ⟨[⟨"c0", "u1", "M", "F"⟩], [], []⟩ "c1" (some "u1") (some ⟨"M"⟩) "F" "ch"
        true).1.waitingUsers = [⟨"c0", "u1", "M", "F"⟩] ∧
    (find_match ⟨[⟨"c0", "u1", "M", "F"⟩], [], []⟩ "c1" (some "u1") (some ⟨"M"⟩) "F" "ch"
        true).1.waitingUsers.countP (fun e => e.userId == "u1") = 1 := by
  have h := enqueue_idempotent_unique ⟨[⟨"c0", "u1", "M", "F"⟩], [], []⟩ "c1" "u1" ⟨"M"⟩
    "F" "ch" true
  exact ⟨h.1 (by decide), h.2.1 (by decide) (by decide),
    h.2.2 (by decide) (by decide) (by decide)⟩

/-- C6: disconnecting a connection whose handshake userId has an outstanding
invite emits exactly one `call_ended` to the invited target's live connection
when it is bound (and none when it is not), always attempts a push dispatch
typed `cancel_call`, and clears the invite — so a subsequent `end_call` or
`disconnect` for the same userId emits no further event for that invite. -/
theorem disconnect_with_invite_teardown (s : ServerState) (socketId u target : String)
    (h : mapGet s.activeCalls u = some target) :
    (∀ tsid, mapGet s.userSocketMap target = some tsid →
      (disconnect s socketId (some u)).2 =
        [Event.callEnded tsid, Event.fcmSend target "cancel_call"]) ∧
    (mapGet s.userSocketMap target = none →
      (disconnect s socketId (some u)).2 = [Event.fcmSend target "cancel_call"]) ∧
    mapGet (disconnect s socketId (some u)).1.activeCalls u = none ∧
    (∀ (ledger : List CallRecord) (d? : Option Nat),
      (end_call (disconnect s socketId (some u)).1 ledger (some u) d?).2.2 = []) ∧
    (∀ socketId2, (disconnect (disconnect s socketId (some u)).1 socketId2 (some u)).2 = []) := by
  have hdel : mapGet (disconnect s socketId (some u)).1.activeCalls u = none := by
    simp only [disconnect, h]
    exact mapGet_mapDelete_self _ _
  refine ⟨?_, ?_, hdel, ?_, ?_⟩
  · intro tsid htsid
    simp [disconnect, h, htsid]
  · intro hnone
    simp [disconnect, h, hnone]
  · intro ledger d?
    generalize hs2 : (disconnect s socketId (some u)).1 = s2 at hdel
    show (end_call_ringing s2 (some u)).2 = []
    simp [end_call_ringing, hdel]
  · intro socketId2
    generalize hs2 : (disconnect s socketId (some u)).1 = s2 at hdel
    simp [disconnect, hdel]

/-- Witness for `disconnect_with_invite_teardown`: u1 has an invite to u2 who
is bound to c2; u1's connection c1 disconnects. -/
theorem disconnect_with_invite_teardown_witness :
    (∀ tsid, mapGet ([("u2", "c2")] : List (String × String)) "u2" = some tsid →
      (disconnect ⟨[], [("u2", "c2")], [("u1", "u2")]⟩ "c1" (some "u1")).2 =
        [Event.callEnded tsid, Event.fcmSend "u2" "cancel_call"]) ∧
    (mapGet ([("u2", "c2")] : List (String × String)) "u2" = none →
      (disconnect ⟨[], [("u2", "c2")], [("u1", "u2")]⟩ "c1" (some "u1")).2 =
        [Event.fcmSend "u2" "cancel_call"]) ∧
    mapGet (disconnect ⟨[], [("u2", "c2")], [("u1", "u2")]⟩ "c1"
        (some "u1")).1.activeCalls "u1" = none ∧
    (∀ (ledger : List CallRecord) (d? : Option Nat),
      (end_call (disconnect ⟨[], [("u2", "c2")], [("u1", "u2")]⟩ "c1" (some "u1")).1 ledger
        (some "u1") d?).2.2 = []) ∧
    (∀ socketId2, (disconnect (disconnect ⟨[], [("u2", "c2")], [("u1", "u2")]⟩ "c1"
        (some "u1")).1 socketId2 (some "u1")).2 = []) :=
  disconnect_with_invite_teardown ⟨[], [("u2", "c2")], [("u1", "u2")]⟩ "c1" "u1" "u2"
    (by decide)

/-- C7: an `end_call` that supplies a duration updates at most one ledger
record — among the records with null duration listing the issuing userId as a
participant, one whose creation time is maximal — setting its duration to the
supplied value and leaving every other record untouched; if no such record
exists the ledger is unchanged. -/
theorem end_call_updates_most_recent_open (s : ServerState) (ledger : List CallRecord)
    (u : String) (d : Nat) :
    ((∀ r ∈ ledger, isOpenFor u r = false) →
      (end_call s ledger (some u) (some d)).2.1 = ledger) ∧
    ((∃ r ∈ ledger, isOpenFor u r = true) →
      ∃ i b, ledger.get? i = some b ∧ isOpenFor u b = true ∧
        (∀ r ∈ ledger, isOpenFor u r = true → r.createdAt ≤ b.createdAt) ∧
        (end_call s ledger (some u) (some d)).2.1 =
          ledger.set i { b with durationInSeconds := some d } ∧
        (∀ j, j ≠ i →
          (end_call s ledger (some u) (some d)).2.1.get? j = ledger.get? j)) := by
  have hL : (end_call s ledger (some u) (some d)).2.1 = updateDuration u d ledger := rfl
  rw [hL]
  constructor
  · intro hall
    have hnone : bestOpen u ledger = none := (bestOpen_none u ledger).mpr hall
    simp [updateDuration, hnone]
  · intro hex
    cases hbo : bestOpen u ledger with
    | none =>
      obtain ⟨r, hr, hopen⟩ := hex
      have hf := (bestOpen_none u ledger).mp hbo r hr
      rw [hf] at hopen
      exact absurd hopen (by simp)
    | some p =>
      obtain ⟨i, b⟩ := p
      obtain ⟨h1, h2, h3⟩ := bestOpen_sound u ledger i b hbo
      have hupd : updateDuration u d ledger =
          ledger.set i { b with durationInSeconds := some d } := by
        simp [updateDuration, hbo]
      refine ⟨i, b, h1, h2, h3, hupd, ?_⟩
      intro j hj
      rw [hupd]
      exact get?_set_of_ne _ _ _ _ hj

/-- Witness for `end_call_updates_most_recent_open`: a closed ledger is left
unchanged, and in a three-record ledger with two open records for other pairs
the single open record naming u1 with the greatest creation time is updated. -/
theorem end_call_updates_most_recent_open_witness :
    (end_call ⟨[], [], []⟩ [⟨["u1", "u2"], "chA", 1, some 30⟩] (some "u1")
        (some 42)).2.1 = [⟨["u1", "u2"], "chA", 1, some 30⟩] ∧
    (∃ i b, ([⟨["u1", "u2"], "chA", 1, some 30⟩, ⟨["u1", "u3"], "chB", 2, none⟩,
        ⟨["u2", "u3"], "chC", 3, none⟩] : List CallRecord).get? i = some b ∧
      isOpenFor "u1" b = true ∧
      (∀ r ∈ ([⟨["u1", "u2"], "chA", 1, some 30⟩, ⟨["u1", "u3"], "chB", 2, none⟩,
          ⟨["u2", "u3"], "chC", 3, none⟩] : List CallRecord),
        isOpenFor "u1" r = true → r.createdAt ≤ b.createdAt) ∧
      (end_call ⟨[], [], []⟩ [⟨["u1", "u2"], "chA", 1, some 30⟩,
          ⟨["u1", "u3"], "chB", 2, none⟩, ⟨["u2", "u3"], "chC", 3, none⟩] (some "u1")
          (some 42)).2.1 =
        ([⟨["u1", "u2"], "chA", 1, some 30⟩, ⟨["u1", "u3"], "chB", 2, none⟩,
          ⟨["u2", "u3"], "chC", 3, none⟩] : List CallRecord).set i
          { b with durationInSeconds := some 42 } ∧
      (∀ j, j ≠ i →
        (end_call ⟨[], [], []⟩ [⟨["u1", "u2"], "chA", 1, some 30⟩,
            ⟨["u1", "u3"], "chB", 2, none⟩, ⟨["u2", "u3"], "chC", 3, none⟩] (some "u1")
            (some 42)).2.1.get? j =
          ([⟨["u1", "u2"], "chA", 1, some 30⟩, ⟨["u1", "u3"], "chB", 2, none⟩,
            ⟨["u2", "u3"], "chC", 3, none⟩] : List CallRecord).get? j)) :=
  ⟨(end_call_updates_most_recent_open ⟨[], [], []⟩ [⟨["u1", "u2"], "chA", 1, some 30⟩]
      "u1" 42).1 (by decide),
   (end_call_updates_most_recent_open ⟨[], [], []⟩ [⟨["u1", "u2"], "chA", 1, some 30⟩,
      ⟨["u1", "u3"], "chB", 2, none⟩, ⟨["u2", "u3"], "chC", 3, none⟩] "u1" 42).2
     (by decide)⟩

/-- C8: a `decline_call` carrying a callerId with a recorded invite clears
that invite (leaving every other invite untouched) and emits exactly one
`call_rejected` to the caller's live connection when one is bound; when none
is bound nothing is emitted, and no push dispatch is ever made. -/
theorem decline_call_behavior (s : ServerState) (callerId target : String)
    (h : mapGet s.activeCalls callerId = some target) :
    mapGet (decline_call s callerId).1.activeCalls callerId = none ∧
    (∀ k, k ≠ callerId → mapGet (decline_call s callerId).1.activeCalls k =
      mapGet s.activeCalls k) ∧
    (∀ csid, mapGet s.userSocketMap callerId = some csid →
      (decline_call s callerId).2 = [Event.callRejected csid]) ∧
    (mapGet s.userSocketMap callerId = none → (decline_call s callerId).2 = []) ∧
    (decline_call s callerId).2.countP isFcm = 0 := by
  have hstate : (decline_call s callerId).1 =
      { s with activeCalls := mapDelete s.activeCalls callerId } := by
    cases hcs : mapGet s.userSocketMap callerId <;> simp [decline_call, hcs]
  refine ⟨?_, ?_, ?_, ?_, ?_⟩
  · rw [hstate]
    exact mapGet_mapDelete_self _ _
  · intro k hk
    rw [hstate]
    exact mapGet_mapDelete_ne _ _ _ hk
  · intro csid hcsid
    simp [decline_call, hcsid]
  · intro hnone
    simp [decline_call, hnone]
  · cases hcs : mapGet s.userSocketMap callerId <;> simp [decline_call, hcs, isFcm]

/-- Witness for `decline_call_behavior`: u1 has an invite to u2 and is bound
to c1; u2 declines. -/
theorem decline_call_behavior_witness :
    mapGet (decline_call ⟨[], [("u1", "c1")], [("u1", "u2"), ("u3", "u4")]⟩
        "u1").1.activeCalls "u1" = none ∧
    (∀ k, k ≠ "u1" → mapGet (decline_call ⟨[], [("u1", "c1")],
        [("u1", "u2"), ("u3", "u4")]⟩ "u1").1.activeCalls k =
      mapGet ([("u1", "u2"), ("u3", "u4")] : List (String × String)) k) ∧
    (∀ csid, mapGet ([("u1", "c1")] : List (String × String)) "u1" = some csid →
      (decline_call ⟨[], [("u1", "c1")], [("u1", "u2"), ("u3", "u4")]⟩ "u1").2 =
        [Event.callRejected csid]) ∧
    (mapGet ([("u1", "c1")] : List (String × String)) "u1" = none →
      (decline_call ⟨[], [("u1", "c1")], [("u1", "u2"), ("u3", "u4")]⟩ "u1").2 = []) ∧
    (decline_call ⟨[], [("u1", "c1")], [("u1", "u2"), ("u3", "u4")]⟩ "u1").2.countP
      isFcm = 0 :=
  decline_call_behavior ⟨[], [("u1", "c1")], [("u1", "u2"), ("u3", "u4")]⟩ "u1" "u2"
    (by decide)

/-- C10: `send_call_invite` records the invite under the payload callerId,
while `cancel_call`, `end_call` and `disconnect` clear only the invite keyed
by the issuing connection's handshake userId; so when the handshake userId
differs from the supplied callerId, the invite just created survives each of
those subsequent signals from that connection. -/
theorem invite_key_mismatch_frame (s : ServerState)
    (uid callerId targetUserId channelName socketId ct : String)
    (ledger : List CallRecord) (d? : Option Nat) (hne : uid ≠ callerId) :
    mapGet (send_call_invite s targetUserId channelName callerId).1.activeCalls callerId =
      some targetUserId ∧
    mapGet (cancel_call (send_call_invite s targetUserId channelName callerId).1 (some uid)
        ct).1.activeCalls callerId = some targetUserId ∧
    mapGet (end_call (send_call_invite s targetUserId channelName callerId).1 ledger
        (some uid) d?).1.activeCalls callerId = some targetUserId ∧
    mapGet (disconnect (send_call_invite s targetUserId channelName callerId).1 socketId
        (some uid)).1.activeCalls callerId = some targetUserId := by
  have hcne : callerId ≠ uid := fun hc => hne hc.symm
  have h1 : mapGet (send_call_invite s targetUserId channelName callerId).1.activeCalls
      callerId = some targetUserId := by
    show mapGet (mapSet s.activeCalls callerId targetUserId) callerId = some targetUserId
    exact mapGet_mapSet_self _ _ _
  generalize hs1 : (send_call_invite s targetUserId channelName callerId).1 = s1 at h1
  refine ⟨h1, ?_, ?_, ?_⟩
  · have hc : (cancel_call s1 (some uid) ct).1.activeCalls = mapDelete s1.activeCalls uid := by
      cases hcs : mapGet s1.userSocketMap ct <;> simp [cancel_call, hcs]
    rw [hc, mapGet_mapDelete_ne _ _ _ hcne]
    exact h1
  · cases hac : mapGet s1.activeCalls uid with
    | some tgt =>
      have he : (end_call s1 ledger (some uid) d?).1.activeCalls =
          mapDelete s1.activeCalls uid := by
        cases hcs : mapGet s1.userSocketMap tgt <;>
          simp [end_call, end_call_ringing, hac, hcs]
      rw [he, mapGet_mapDelete_ne _ _ _ hcne]
      exact h1
    | none =>
      have he : (end_call s1 ledger (some uid) d?).1.activeCalls = s1.activeCalls := by
        simp [end_call, end_call_ringing, hac]
      rw [he]
      exact h1
  · cases hac : mapGet s1.activeCalls uid with
    | some tgt =>
      have hd : (disconnect s1 socketId (some uid)).1.activeCalls =
          mapDelete s1.activeCalls uid := by
        cases hcs : mapGet s1.userSocketMap tgt <;> simp [disconnect, hac, hcs]
      rw [hd, mapGet_mapDelete_ne _ _ _ hcne]
      exact h1
    | none =>
      have hd : (disconnect s1 socketId (some uid)).1.activeCalls = s1.activeCalls := by
        simp [disconnect, hac]
      rw [hd]
      exact h1

/-- Witness for `invite_key_mismatch_frame`: connection c9 with handshake
userId u9 relays an invite whose payload callerId is u5; u9's own teardown
signals leave u5's invite in place. -/
theorem invite_key_mismatch_frame_witness :
    mapGet (send_call_invite ⟨[], [], [("u9", "u7")]⟩ "u6" "chZ"
        "u5").1.activeCalls "u5" = some "u6" ∧
    mapGet (cancel_call (send_call_invite ⟨[], [], [("u9", "u7")]⟩ "u6" "chZ" "u5").1
        (some "u9") "u6").1.activeCalls "u5" = some "u6" ∧
    mapGet (end_call (send_call_invite ⟨[], [], [("u9", "u7")]⟩ "u6" "chZ" "u5").1 []
        (some "u9") (some 3)).1.activeCalls "u5" = some "u6" ∧
    mapGet (disconnect (send_call_invite ⟨[], [], [("u9", "u7")]⟩ "u6" "chZ" "u5").1 "c9"
        (some "u9")).1.activeCalls "u5" = some "u6" :=
  invite_key_mismatch_frame ⟨[], [], [("u9", "u7")]⟩ "u9" "u5" "u6" "chZ" "c9" "u6" []
    (some 3) (by decide)
